import Mathlib

set_option maxHeartbeats 1000000

namespace NBA

/-! ### Shallow embedding of the ingestion pipeline

Source: `src/scheduler.py` (functions `search_videos`, `fetch_statistics`,
`fetch_highlights`, `update_database`) and the `Highlight` model of
`src/database.py`.  The YouTube Data API client is passed in as an oracle
(`Youtube`); printing is modelled by returning the printed messages; the
SQLAlchemy session is an explicit stored/pending pair with commit and
rollback. -/

/-- Decidable equality of run outcomes, used to evaluate the functions on
concrete inputs. -/
def exceptEq {ε α : Type} [DecidableEq ε] [DecidableEq α] (a b : Except ε α) :
    Decidable (a = b) :=
  match a, b with
  | .ok x, .ok y => decidable_of_iff (x = y) (by simp)
  | .ok _, .error _ => .isFalse (by simp)
  | .error _, .ok _ => .isFalse (by simp)
  | .error e, .error f => decidable_of_iff (e = f) (by simp)

instance {ε α : Type} [DecidableEq ε] [DecidableEq α] : DecidableEq (Except ε α) := exceptEq

/-- Value of a decimal digit character. -/
def digitVal (c : Char) : Nat := c.toNat - 48

/-- Result of `datetime.datetime.strptime(s, "%Y-%m-%dT%H:%M:%SZ")`:
the six broken-down time fields. -/
structure Timestamp where
  year : Nat
  month : Nat
  day : Nat
  hour : Nat
  minute : Nat
  second : Nat
deriving DecidableEq

/-- Numeric field of Python `_strptime`, which matches one or two digit
characters: the regex alternations (such as `1[0-2]|0[1-9]|[1-9]` for `%m`,
`2[0-3]|[0-1]\d|\d` for `%H`) prefer a two-digit match whose value is in
range and fall back to a single digit whose value is in range.  Returns the
field value and the remaining input. -/
def parseField (lo hi : Nat) : List Char → Option (Nat × List Char)
  | c1 :: c2 :: rest =>
    if c1.isDigit ∧ c2.isDigit ∧ lo ≤ digitVal c1 * 10 + digitVal c2 ∧
        digitVal c1 * 10 + digitVal c2 ≤ hi then
      some (digitVal c1 * 10 + digitVal c2, rest)
    else if c1.isDigit ∧ lo ≤ digitVal c1 ∧ digitVal c1 ≤ hi then
      some (digitVal c1, c2 :: rest)
    else none
  | [c1] =>
    if c1.isDigit ∧ lo ≤ digitVal c1 ∧ digitVal c1 ≤ hi then
      some (digitVal c1, [])
    else none
  | [] => none

/-- Literal character of the format string. -/
def parseLit (c : Char) : List Char → Option (List Char)
  | d :: rest => if d = c then some rest else none
  | [] => none

/-- Exactly four digit characters (the `%Y` directive). -/
def parseYear : List Char → Option (Nat × List Char)
  | c1 :: c2 :: c3 :: c4 :: rest =>
    if c1.isDigit ∧ c2.isDigit ∧ c3.isDigit ∧ c4.isDigit then
      some (((digitVal c1 * 10 + digitVal c2) * 10 + digitVal c3) * 10 + digitVal c4, rest)
    else none
  | _ => none

/-- Gregorian leap-year rule used by `datetime`. -/
def isLeapYear (y : Nat) : Bool :=
  (y % 4 == 0) && (y % 100 != 0 || y % 400 == 0)

/-- Number of days of a month, used by the `datetime` constructor to
validate the day field. -/
def daysInMonth (y m : Nat) : Nat :=
  if m = 2 then (if isLeapYear y then 29 else 28)
  else if m = 4 ∨ m = 6 ∨ m = 9 ∨ m = 11 then 30
  else 31

/-- Embedding of `datetime.datetime.strptime(s, "%Y-%m-%dT%H:%M:%SZ")`
followed by the range checks of the `datetime` constructor; `none` is a
Python `ValueError`.  The whole input must be consumed (strptime rejects
unconverted trailing data) and the year must be at least 1. -/
def parseTimestamp (s : String) : Option Timestamp := do
  let cs := s.data
  let (y, cs) ← parseYear cs
  let cs ← parseLit '-' cs
  let (mo, cs) ← parseField 1 12 cs
  let cs ← parseLit '-' cs
  let (d, cs) ← parseField 1 31 cs
  let cs ← parseLit 'T' cs
  let (h, cs) ← parseField 0 23 cs
  let cs ← parseLit ':' cs
  let (mi, cs) ← parseField 0 59 cs
  let cs ← parseLit ':' cs
  let (sec, cs) ← parseField 0 59 cs
  let cs ← parseLit 'Z' cs
  if cs = [] ∧ 1 ≤ y ∧ d ≤ daysInMonth y mo then
    some ⟨y, mo, d, h, mi, sec⟩
  else none

/-- Item of a search response: `item["id"]["videoId"]` together with the
`snippet` fields read by `search_videos`; `publishedAt` is the raw string
still to be parsed. -/
structure RawSearchItem where
  videoId : String
  title : String
  channelTitle : String
  publishedAt : String
deriving DecidableEq

/-- Item of a statistics response: `item["id"]` and the value of
`item.get("statistics", {}).get("viewCount", 0)`; `viewCount` is `none`
when the statistics object lacks that field (or is itself missing). -/
structure StatsItem where
  id : String
  viewCount : Option Int
deriving DecidableEq

/-- Exceptions of the run: `httpError` is `googleapiclient.errors.HttpError`,
`valueError` is the `ValueError` of a failed `strptime` (carrying the bad
string), and `systemExit` is the `SystemExit` raised for a missing API key. -/
inductive RunError
  | httpError (e : String)
  | valueError (s : String)
  | systemExit (msg : String)
deriving DecidableEq

/-- Oracle standing for the YouTube Data API client built by
`googleapiclient.discovery.build`: `searchList term` gives the items of the
`youtube.search().list(...)` response for a term (or raises an HttpError),
and `videosList s` gives the items of `youtube.videos().list(...)` for the
comma-joined id parameter `s`. -/
structure Youtube where
  searchList : String → Except String (List RawSearchItem)
  videosList : String → List StatsItem

/-- Candidate video dict built by `search_videos`. -/
structure Video where
  video_id : String
  title : String
  channel_title : String
  published_at : Timestamp
deriving DecidableEq

/-- Parse of one search item inside `search_videos` (the dict appended to
`results`); a bad `publishedAt` raises a `ValueError`. -/
def parseItem (item : RawSearchItem) : Except RunError Video :=
  match parseTimestamp item.publishedAt with
  | some ts =>
    .ok { video_id := item.videoId, title := item.title,
          channel_title := item.channelTitle, published_at := ts }
  | none => .error (RunError.valueError item.publishedAt)

/-- Loop of `search_videos` over `response.get("items", [])`: items are
parsed in order, and the first `ValueError` aborts the whole call. -/
def parseItems : List RawSearchItem → Except RunError (List Video)
  | [] => .ok []
  | it :: its =>
    match parseItem it with
    | .error e => .error e
    | .ok v =>
      match parseItems its with
      | .error e => .error e
      | .ok vs => .ok (v :: vs)

/-- Embedding of `search_videos`. -/
def search_videos (y : Youtube) (term : String) : Except RunError (List Video) :=
  match y.searchList term with
  | .error e => .error (RunError.httpError e)
  | .ok items => parseItems items

/-- Chunking `[video_ids[i : i + 50] for i in range(0, len(video_ids), 50)]`:
the range `range(0, N, 50)` has `(N + 49) / 50` elements (the multiples of
50 below `N`), and the slice `l[i : i + 50]` is `(l.drop i).take 50`. -/
def chunkList {α : Type} (l : List α) : List (List α) :=
  (List.range' 0 ((l.length + 49) / 50) 50).map (fun i => (l.drop i).take 50)

/-- Python dict assignment `stats[vid] = view_count`: the value is updated
in place when the key is present (insertion order kept), else the pair is
appended. -/
def dictInsert (m : List (String × Int)) (k : String) (v : Int) : List (String × Int) :=
  if m.any (fun p => decide (p.1 = k)) then
    m.map (fun p => if p.1 = k then (k, v) else p)
  else m ++ [(k, v)]

/-- Python dict lookup, as used by `stats.get`. -/
def dictGet (m : List (String × Int)) (k : String) : Option Int :=
  (m.find? (fun p => decide (p.1 = k))).map (fun p => p.2)

/-- Body of the inner loop of `fetch_statistics`:
`stats[vid] = int(item.get("statistics", {}).get("viewCount", 0))`. -/
def statsStep (stats : List (String × Int)) (item : StatsItem) : List (String × Int) :=
  dictInsert stats item.id (item.viewCount.getD 0)

/-- Body of the outer loop of `fetch_statistics` for one chunk: the request
for the comma-joined ids is issued (and logged in the first component) and
its response items are folded into the stats dict. -/
def statsFold (y : Youtube) (acc : List String × List (String × Int))
    (chunk : List String) : List String × List (String × Int) :=
  let ids_str := String.intercalate "," chunk
  (acc.1 ++ [ids_str], (y.videosList ids_str).foldl statsStep acc.2)

/-- Embedding of `fetch_statistics`.  The first component logs, in order,
the `id` parameter of every `videos().list` request issued; the second is
the returned `stats` dict. -/
def fetch_statistics (y : Youtube) (video_ids : List String) :
    List String × List (String × Int) :=
  if video_ids.isEmpty then ([], [])
  else (chunkList video_ids).foldl (statsFold y) ([], [])

/-- Record assembled by `fetch_highlights`: a candidate video with the
attached `views` value. -/
structure Record where
  video_id : String
  title : String
  channel_title : String
  published_at : Timestamp
  views : Int
deriving DecidableEq

/-- Candidate part of a `Record`. -/
def recordVideo (r : Record) : Video :=
  { video_id := r.video_id, title := r.title, channel_title := r.channel_title,
    published_at := r.published_at }

/-- Body of the inner loop of `fetch_highlights` for one video: an unseen
id is appended to `all_videos` and added to `seen_ids` (the set is
modelled as the list of ids in insertion order; only membership is used). -/
def addVideo (p : List Video × List String) (v : Video) : List Video × List String :=
  if v.video_id ∈ p.2 then p else (p.1 ++ [v], p.2 ++ [v.video_id])

/-- Inner loop of `fetch_highlights` over the videos of one term. -/
def addVideos (acc : List Video × List String) (videos : List Video) :
    List Video × List String :=
  videos.foldl addVideo acc

/-- Loop `for term in keywords` of `fetch_highlights`: an `HttpError` is
caught, printed and the term skipped; any other exception propagates. -/
def gatherVideos (y : Youtube) : List String → List Video × List String →
    Except RunError (List Video × List String)
  | [], acc => .ok acc
  | term :: rest, acc =>
    match search_videos y term with
    | .ok videos => gatherVideos y rest (addVideos acc videos)
    | .error (RunError.httpError _) => gatherVideos y rest acc
    | .error e => .error e

/-- Observable outcome of `fetch_highlights`: the returned records, the id
list passed to `fetch_statistics`, the statistics requests issued, and the
stats dict obtained. -/
structure FetchResult where
  records : List Record
  statsIds : List String
  statsCalls : List String
  stats : List (String × Int)
deriving DecidableEq

/-- Embedding of `fetch_highlights`.  Here `apiKey` is `YOUTUBE_API_KEY`
(`none` when unset; `some ""` is falsy in Python as well) and `keywords`
is the list read by `load_keywords`. -/
def fetch_highlights (apiKey : Option String) (y : Youtube) (keywords : List String) :
    Except RunError FetchResult :=
  if apiKey = none ∨ apiKey = some "" then
    .error (RunError.systemExit "Environment variable YOUTUBE_API_KEY is not set.")
  else
    match gatherVideos y keywords ([], []) with
    | .error e => .error e
    | .ok (all_videos, _) =>
      let ids := all_videos.map (fun v => v.video_id)
      let res := fetch_statistics y ids
      let records := all_videos.map (fun v =>
        { video_id := v.video_id, title := v.title, channel_title := v.channel_title,
          published_at := v.published_at,
          views := (dictGet res.2 v.video_id).getD 0 })
      .ok { records := records, statsIds := ids, statsCalls := res.1, stats := res.2 }

/-- Row of the `highlights` table (`src/database.py`): nullable columns are
options, matching the `rec.get(...)` reads in `update_database`. -/
structure Highlight where
  video_id : String
  title : String
  channel_title : Option String
  published_at : Option Timestamp
  views : Option Int
deriving DecidableEq

/-- Semantics of `session.merge(obj)` keyed on the primary key `video_id`:
overwrite the existing row in place, else insert a new row at the end. -/
def mergeRow (t : List Highlight) (obj : Highlight) : List Highlight :=
  if t.any (fun r => decide (r.video_id = obj.video_id)) then
    t.map (fun r => if r.video_id = obj.video_id then obj else r)
  else t ++ [obj]

/-- Folding `session.merge` over a batch of records. -/
def mergeAll : List Highlight → List Highlight → List Highlight
  | t, [] => t
  | t, r :: rs => mergeAll (mergeRow t r) rs

/-- SQLAlchemy session state: the rows durably visible in the database
(`stored`) and the staged state the session would write (`pending`). -/
structure Session where
  stored : List Highlight
  pending : List Highlight
deriving DecidableEq

/-- Staging a `session.merge` call. -/
def sessionMerge (s : Session) (r : Highlight) : Session :=
  { s with pending := mergeRow s.pending r }

/-- Publishing the staged state (`session.commit()`). -/
def sessionCommit (s : Session) : Session :=
  { s with stored := s.pending }

/-- Discarding the staged state (`session.rollback()`). -/
def sessionRollback (s : Session) : Session :=
  { s with pending := s.stored }

/-- Messages printed by `update_database`. -/
inductive DbMessage
  | upserted (n : Nat)
  | dbError (e : String)
deriving DecidableEq

/-- Observable outcome of `update_database`: the final table, the printed
messages, the Python return value, and the exception that escaped to the
caller (`none` when the call returns).  The function has no `return`
statement and is annotated `-> None`, so `ret` is `none` whenever the call
returns; `some n` would model a returned count. -/
structure DbResult where
  table : List Highlight
  printed : List DbMessage
  ret : Option Nat
  raised : Option String
deriving DecidableEq

/-- Try-block loop of `update_database` over `recs`, staging one
`session.merge` per record.  A `failure` of `some (k, e)` injects a
`SQLAlchemyError e` raised in place of merge number `k` (0-based); the
value `k = recs.length` means the error is raised by `session.commit()`
instead, and a larger `k` never fires. -/
def tryLoop (failure : Option (Nat × String)) :
    List Highlight → Nat → Session → Except (String × Session) Session
  | [], _, s => .ok s
  | r :: rs, i, s =>
    match failure with
    | some (k, e) =>
      if k = i then .error (e, s)
      else tryLoop failure rs (i + 1) (sessionMerge s r)
    | none => tryLoop failure rs (i + 1) (sessionMerge s r)

/-- Embedding of `update_database`.  Its first statement is `init_db()`,
that is `Base.metadata.create_all(bind=engine)`: it runs before the `try`
block and connects to the database on every call, so a `SQLAlchemyError`
raised there (`initFailure`) propagates to the caller uncaught, with
nothing merged, printed, or rolled back.  Once `init_db` returns, the
`Highlight(...)` constructor call copies exactly the five fields of each
input record (so records are taken directly as `Highlight` values); on
success the staged merges are committed and the count printed; on a
`SQLAlchemyError` inside the `try` block the session is rolled back and
the error printed; the session is closed either way and nothing is
returned. -/
def update_database (table0 : List Highlight) (records : List Highlight)
    (initFailure : Option String) (failure : Option (Nat × String)) : DbResult :=
  match initFailure with
  | some e => { table := table0, printed := [], ret := none, raised := some e }
  | none =>
    let recs := records
    let s0 : Session := { stored := table0, pending := table0 }
    let attempt : Except (String × Session) Session :=
      match tryLoop failure recs 0 s0 with
      | .error es => .error es
      | .ok s =>
        match failure with
        | some (k, e) => if k = recs.length then .error (e, s) else .ok (sessionCommit s)
        | none => .ok (sessionCommit s)
    match attempt with
    | .ok s =>
        { table := s.stored, printed := [DbMessage.upserted recs.length],
          ret := none, raised := none }
    | .error (e, s) =>
        { table := (sessionRollback s).stored, printed := [DbMessage.dbError e],
          ret := none, raised := none }

/-! ### Specification-side definitions used to state the claims -/

/-- First-of-two-options choice, used to state last-write-wins lookups. -/
def optOr {α : Type} : Option α → Option α → Option α
  | some x, _ => some x
  | none, b => b

/-- Dedup policy in the words of the specification, for comparison with the
code: keep each `video_id` the first time it appears, drop later
re-discoveries. -/
def dedupFirstAux (seen : List String) : List Video → List Video
  | [] => []
  | v :: vs =>
    if v.video_id ∈ seen then dedupFirstAux seen vs
    else v :: dedupFirstAux (seen ++ [v.video_id]) vs

/-- Deduplicated candidate list keeping first occurrences. -/
def dedupFirst (l : List Video) : List Video := dedupFirstAux [] l

/-- Videos contributed by one keyword: the successful search results, or
nothing when the term's search failed. -/
def okResults (y : Youtube) (term : String) : List Video :=
  match search_videos y term with
  | .ok vs => vs
  | .error _ => []

/-- Statistics response items processed by `fetch_statistics`, in request
order. -/
def allStatsItems (y : Youtube) (ids : List String) : List StatsItem :=
  ((chunkList ids).map (fun c => y.videosList (String.intercalate "," c))).flatten

/-- Value the stats dict ends up holding for a key: the last response item
with that id wins. -/
def lastVal : List StatsItem → String → Option Int
  | [], _ => none
  | it :: its, k =>
    optOr (lastVal its k) (if it.id = k then some (it.viewCount.getD 0) else none)

/-- Last record of a batch carrying the given key. -/
def lastUpsert : List Highlight → String → Option Highlight
  | [], _ => none
  | r :: rs, k =>
    optOr (lastUpsert rs k) (if r.video_id = k then some r else none)

/-- Keys column of a table. -/
def tableKeys (t : List Highlight) : List String := t.map (fun r => r.video_id)

/-- Primary-key invariant of the `highlights` table. -/
def NodupKeys (t : List Highlight) : Prop := (tableKeys t).Nodup

instance (t : List Highlight) : Decidable (NodupKeys t) := by
  unfold NodupKeys; infer_instance

/-- Row of a table with a given key (first match). -/
def findRow (t : List Highlight) (k : String) : Option Highlight :=
  t.find? (fun r => decide (r.video_id = k))

/-- Session carried by either outcome of the try block. -/
def resultSession : Except (String × Session) Session → Session
  | .ok s => s
  | .error (_, s) => s

/-- Discriminator for a run that aborted with the `ValueError` of a failed
timestamp parse. -/
def isValueError {α : Type} : Except RunError α → Bool
  | .error (RunError.valueError _) => true
  | _ => false

/-! ### Basic option lemmas -/

theorem optOr_none_left {α : Type} (b : Option α) : optOr none b = b := rfl

theorem optOr_some {α : Type} (x : α) (b : Option α) : optOr (some x) b = some x := rfl

theorem optOr_assoc {α : Type} (a b c : Option α) :
    optOr (optOr a b) c = optOr a (optOr b c) := by
  cases a <;> rfl

theorem optOr_isSome {α : Type} (a b : Option α) :
    (optOr a b).isSome = (a.isSome || b.isSome) := by
  cases a <;> rfl

/-! ### Chunking lemmas -/

theorem chunkList_nil {α : Type} : chunkList ([] : List α) = [] := by
  simp [chunkList]

theorem chunkList_length {α : Type} (l : List α) :
    (chunkList l).length = (l.length + 49) / 50 := by
  simp [chunkList]

theorem length_le_of_mem_chunkList {α : Type} {l : List α} {c : List α}
    (h : c ∈ chunkList l) : c.length ≤ 50 := by
  simp only [chunkList, List.mem_map] at h
  obtain ⟨i, _, rfl⟩ := h
  simp [List.length_take]

theorem range'_shift (n s t step : Nat) :
    List.range' (s + t) n step = (List.range' s n step).map (fun i => i + t) := by
  induction n generalizing s with
  | zero => simp
  | succ n ih =>
    rw [List.range'_succ, List.range'_succ, List.map_cons]
    have : s + t + step = s + step + t := by omega
    rw [this, ih (s + step)]

theorem chunkList_cons_eq {α : Type} (l : List α) (h : l ≠ []) :
    chunkList l = l.take 50 :: chunkList (l.drop 50) := by
  have hlen : 0 < l.length := List.length_pos.mpr h
  have hcount : (l.length + 49) / 50 = (l.length - 50 + 49) / 50 + 1 := by omega
  have hdrop : (l.drop 50).length = l.length - 50 := by simp
  simp only [chunkList, hcount, List.range'_succ, List.map_cons, List.drop_zero, hdrop]
  congr 1
  rw [range'_shift, List.map_map]
  apply List.map_congr_left
  intro i _
  simp [Function.comp, List.drop_drop, Nat.add_comm]

theorem chunkList_flatten_aux {α : Type} :
    ∀ (n : Nat) (l : List α), l.length = n → (chunkList l).flatten = l := by
  intro n
  induction n using Nat.strong_induction_on with
  | _ n ih =>
    intro l hl
    cases l with
    | nil => simp [chunkList_nil]
    | cons x xs =>
      rw [chunkList_cons_eq _ (by simp), List.flatten_cons]
      have hd : ((x :: xs).drop 50).length < n := by
        rw [← hl]
        simp only [List.length_drop, List.length_cons]
        omega
      rw [ih _ hd _ rfl]
      exact List.take_append_drop 50 (x :: xs)

theorem chunkList_flatten {α : Type} (l : List α) : (chunkList l).flatten = l :=
  chunkList_flatten_aux l.length l rfl

/-! ### Dict lemmas -/

theorem dictGet_nil (k : String) : dictGet [] k = none := rfl

theorem dictGet_cons (q : String × Int) (ps : List (String × Int)) (k2 : String) :
    dictGet (q :: ps) k2 = if q.1 = k2 then some q.2 else dictGet ps k2 := by
  by_cases h : q.1 = k2
  · simp [dictGet, List.find?_cons, h]
  · simp [dictGet, List.find?_cons, h]

theorem dictGet_update (m : List (String × Int)) (k : String) (v : Int) (k2 : String) :
    dictGet (m.map (fun p => if p.1 = k then (k, v) else p)) k2
      = if k2 = k then (if m.any (fun p => decide (p.1 = k)) then some v else none)
        else dictGet m k2 := by
  induction m with
  | nil => simp [dictGet]
  | cons p ps ih =>
    rw [List.map_cons, dictGet_cons, dictGet_cons, List.any_cons]
    by_cases hp : p.1 = k
    · rw [if_pos hp]
      by_cases hk : k2 = k
      · have h1 : ((k, v) : String × Int).1 = k2 := by simp [hk]
        have h2 : (decide (p.1 = k) || ps.any fun p => decide (p.1 = k)) = true := by
          simp [hp]
        rw [if_pos h1, if_pos hk, if_pos h2]
      · have h1 : ¬ (((k, v) : String × Int).1 = k2) := fun hh => hk hh.symm
        have h2 : ¬ (p.1 = k2) := by intro hh; apply hk; rw [← hh, hp]
        rw [if_neg h1, if_neg h2, ih, if_neg hk, if_neg hk]
    · rw [if_neg hp]
      by_cases hk2 : p.1 = k2
      · have hk : ¬ (k2 = k) := by intro hh; apply hp; rw [hk2, hh]
        rw [if_pos hk2, if_neg hk, if_pos hk2]
      · rw [if_neg hk2, if_neg hk2, ih]
        by_cases hk : k2 = k
        · rw [if_pos hk, if_pos hk]
          have : (decide (p.1 = k) || ps.any fun p => decide (p.1 = k))
              = ps.any fun p => decide (p.1 = k) := by simp [hp]
          rw [this]
        · rw [if_neg hk, if_neg hk]

theorem dictGet_dictInsert (m : List (String × Int)) (k : String) (v : Int) (k2 : String) :
    dictGet (dictInsert m k v) k2 = if k2 = k then some v else dictGet m k2 := by
  unfold dictInsert
  by_cases hany : m.any (fun p => decide (p.1 = k))
  · rw [if_pos hany, dictGet_update, hany]
    simp
  · rw [if_neg hany]
    by_cases hk : k2 = k
    · subst hk
      have hnone : m.find? (fun p => decide (p.1 = k2)) = none := by
        rw [List.find?_eq_none]
        intro x hx hpx
        exact hany (List.any_eq_true.mpr ⟨x, hx, hpx⟩)
      unfold dictGet
      rw [List.find?_append, hnone, Option.none_or]
      simp [List.find?_cons]
    · have hkk : ¬ (k = k2) := fun hh => hk hh.symm
      have hsingle : List.find? (fun p => decide (p.1 = k2)) [(k, v)] = none := by
        simp [List.find?_cons, hkk]
      unfold dictGet
      rw [List.find?_append, hsingle, Option.or_none, if_neg hk]

theorem lastVal_nil (k : String) : lastVal [] k = none := rfl

theorem lastVal_cons (it : StatsItem) (its : List StatsItem) (k : String) :
    lastVal (it :: its) k
      = optOr (lastVal its k) (if it.id = k then some (it.viewCount.getD 0) else none) :=
  rfl

theorem dictGet_foldl_statsStep (items : List StatsItem) (m : List (String × Int))
    (k : String) :
    dictGet (items.foldl statsStep m) k = optOr (lastVal items k) (dictGet m k) := by
  induction items generalizing m with
  | nil => rfl
  | cons it its ih =>
    rw [List.foldl_cons, ih, lastVal_cons, optOr_assoc]
    congr 1
    show dictGet (statsStep m it) k
        = optOr (if it.id = k then some (it.viewCount.getD 0) else none) (dictGet m k)
    unfold statsStep
    rw [dictGet_dictInsert]
    by_cases h : it.id = k
    · rw [if_pos h, if_pos h.symm, optOr_some]
    · rw [if_neg h, if_neg (fun hh => h hh.symm), optOr_none_left]

theorem lastVal_isSome (items : List StatsItem) (k : String) :
    (lastVal items k).isSome = true ↔ ∃ it ∈ items, it.id = k := by
  induction items with
  | nil => simp [lastVal_nil]
  | cons it its ih =>
    rw [lastVal_cons, optOr_isSome, Bool.or_eq_true, ih]
    by_cases h : it.id = k
    · simp only [if_pos h, Option.isSome_some]
      constructor
      · intro _
        exact ⟨it, List.mem_cons_self it its, h⟩
      · intro _
        exact Or.inr trivial
    · simp only [if_neg h, Option.isSome_none]
      constructor
      · rintro (⟨x, hx, hxk⟩ | hfalse)
        · exact ⟨x, List.mem_cons_of_mem _ hx, hxk⟩
        · exact absurd hfalse (by simp)
      · rintro ⟨x, hx, hxk⟩
        rcases List.mem_cons.mp hx with rfl | hx'
        · exact absurd hxk h
        · exact Or.inl ⟨x, hx', hxk⟩

theorem fetch_statistics_eq (y : Youtube) (ids : List String) (h : ids ≠ []) :
    fetch_statistics y ids
      = ((chunkList ids).map (fun c => String.intercalate "," c),
         (allStatsItems y ids).foldl statsStep []) := by
  have hne : ids.isEmpty = false := by
    cases ids with
    | nil => exact absurd rfl h
    | cons x xs => rfl
  have main : ∀ (chunks : List (List String)) (acc : List String × List (String × Int)),
      chunks.foldl (statsFold y) acc
        = (acc.1 ++ chunks.map (fun c => String.intercalate "," c),
           ((chunks.map (fun c => y.videosList (String.intercalate "," c))).flatten).foldl
             statsStep acc.2) := by
    intro chunks
    induction chunks with
    | nil => intro acc; simp
    | cons c cs ih =>
      intro acc
      rw [List.foldl_cons, ih]
      simp [statsFold, List.foldl_append, List.append_assoc]
  unfold fetch_statistics allStatsItems
  rw [hne]
  simp only [Bool.false_eq_true, if_false, main]
  simp

theorem optOr_none_right {α : Type} (a : Option α) : optOr a none = a := by
  cases a <;> rfl

theorem fetch_statistics_fst (y : Youtube) (ids : List String) (h : ids ≠ []) :
    (fetch_statistics y ids).1
      = (chunkList ids).map (fun c => String.intercalate "," c) := by
  rw [fetch_statistics_eq y ids h]

theorem fetch_statistics_snd (y : Youtube) (ids : List String) (h : ids ≠ []) :
    (fetch_statistics y ids).2 = (allStatsItems y ids).foldl statsStep [] := by
  rw [fetch_statistics_eq y ids h]

theorem lastVal_all_none (items : List StatsItem) (v : String)
    (h1 : ∃ it ∈ items, it.id = v)
    (h2 : ∀ it ∈ items, it.id = v → it.viewCount = none) :
    lastVal items v = some 0 := by
  induction items with
  | nil =>
    obtain ⟨it, hit, _⟩ := h1
    simp at hit
  | cons it its ih =>
    rw [lastVal_cons]
    by_cases hex : ∃ x ∈ its, x.id = v
    · rw [ih hex (fun x hx hxv => h2 x (List.mem_cons_of_mem _ hx) hxv), optOr_some]
    · have hnone : lastVal its v = none := by
        cases hl : lastVal its v with
        | none => rfl
        | some w => exact absurd ((lastVal_isSome its v).mp (by rw [hl]; rfl)) hex
      rw [hnone, optOr_none_left]
      obtain ⟨x, hx, hxv⟩ := h1
      rcases List.mem_cons.mp hx with rfl | hx'
      · rw [if_pos hxv, h2 x (List.mem_cons_self x its) hxv]
        rfl
      · exact absurd ⟨x, hx', hxv⟩ hex

/-- Claim C3: for every non-empty list of N video ids, `fetch_statistics`
issues exactly ceil(N / 50) upstream calls (one per chunk, in order), the
chunks partition the input deterministically in input order with at most 50
ids each, and the returned mapping contains exactly the ids present in the
upstream responses, merged into a single mapping. -/
theorem fetch_statistics_batches (y : Youtube) (ids : List String) (k : String)
    (h : ids ≠ []) :
    (fetch_statistics y ids).1.length = (ids.length + 49) / 50
    ∧ (fetch_statistics y ids).1
        = (chunkList ids).map (fun c => String.intercalate "," c)
    ∧ (chunkList ids).flatten = ids
    ∧ (∀ c ∈ chunkList ids, c.length ≤ 50)
    ∧ ((dictGet (fetch_statistics y ids).2 k).isSome = true
        ↔ ∃ it ∈ allStatsItems y ids, it.id = k) := by
  refine ⟨?_, fetch_statistics_fst y ids h, chunkList_flatten ids,
    fun c hc => length_le_of_mem_chunkList hc, ?_⟩
  · rw [fetch_statistics_fst y ids h]
    simp [chunkList_length]
  · rw [fetch_statistics_snd y ids h, dictGet_foldl_statsStep, dictGet_nil,
      optOr_none_right, lastVal_isSome]

/-- Concrete run of the C3 theorem: two ids, a single chunk, one response
item for id "a". -/
theorem fetch_statistics_batches_witness :
    (fetch_statistics ⟨fun _ => .ok [], fun _ => [⟨"a", some 7⟩]⟩ ["a", "b"]).1.length
        = ((["a", "b"] : List String).length + 49) / 50
    ∧ (fetch_statistics ⟨fun _ => .ok [], fun _ => [⟨"a", some 7⟩]⟩ ["a", "b"]).1
        = (chunkList ["a", "b"]).map (fun c => String.intercalate "," c)
    ∧ (chunkList (["a", "b"] : List String)).flatten = ["a", "b"]
    ∧ (∀ c ∈ chunkList (["a", "b"] : List String), c.length ≤ 50)
    ∧ ((dictGet (fetch_statistics ⟨fun _ => .ok [], fun _ => [⟨"a", some 7⟩]⟩
          ["a", "b"]).2 "a").isSome = true
        ↔ ∃ it ∈ allStatsItems ⟨fun _ => .ok [], fun _ => [⟨"a", some 7⟩]⟩ ["a", "b"],
            it.id = "a") :=
  fetch_statistics_batches ⟨fun _ => .ok [], fun _ => [⟨"a", some 7⟩]⟩ ["a", "b"] "a"
    (by decide)

/-- Claim C9: an id that the upstream statistics response includes as an
item, every occurrence of which lacks a viewCount field, is mapped to 0 in
the returned mapping — present with value 0, not absent. -/
theorem fetch_statistics_missing_viewCount (y : Youtube) (ids : List String) (v : String)
    (h1 : ∃ it ∈ allStatsItems y ids, it.id = v)
    (h2 : ∀ it ∈ allStatsItems y ids, it.id = v → it.viewCount = none) :
    dictGet (fetch_statistics y ids).2 v = some 0 := by
  have hne : ids ≠ [] := by
    intro he
    subst he
    obtain ⟨it, hit, _⟩ := h1
    simp [allStatsItems, chunkList_nil] at hit
  rw [fetch_statistics_snd y ids hne, dictGet_foldl_statsStep, dictGet_nil,
    optOr_none_right]
  exact lastVal_all_none _ v h1 h2

/-- Concrete run of the C9 theorem: the single response item for id "a"
has no viewCount, and the returned mapping sends "a" to 0. -/
theorem fetch_statistics_missing_viewCount_witness :
    dictGet (fetch_statistics ⟨fun _ => .ok [], fun _ => [⟨"a", none⟩]⟩ ["a"]).2 "a"
      = some 0 :=
  fetch_statistics_missing_viewCount ⟨fun _ => .ok [], fun _ => [⟨"a", none⟩]⟩ ["a"] "a"
    (by decide) (by decide)

/-! ### Table and merge lemmas -/

theorem tableKeys_cons (r : Highlight) (t : List Highlight) :
    tableKeys (r :: t) = r.video_id :: tableKeys t := rfl

theorem mergeRow_mem_cond (t : List Highlight) (k : String) :
    (t.any (fun r => decide (r.video_id = k)) = true) ↔ k ∈ tableKeys t := by
  simp [tableKeys, List.any_eq_true, List.mem_map]

theorem findRow_cons (r : Highlight) (t : List Highlight) (k : String) :
    findRow (r :: t) k = if r.video_id = k then some r else findRow t k := by
  by_cases h : r.video_id = k <;> simp [findRow, List.find?_cons, h]

theorem findRow_eq_none (t : List Highlight) (k : String) (h : k ∉ tableKeys t) :
    findRow t k = none := by
  rw [findRow, List.find?_eq_none]
  intro r hr hrk
  apply h
  rw [tableKeys, List.mem_map]
  exact ⟨r, hr, of_decide_eq_true hrk⟩

theorem findRow_update (t : List Highlight) (h : Highlight) (k : String) :
    findRow (t.map (fun r => if r.video_id = h.video_id then h else r)) k
      = if k = h.video_id
          then (if t.any (fun r => decide (r.video_id = h.video_id)) then some h else none)
          else findRow t k := by
  induction t with
  | nil => simp [findRow]
  | cons r t ih =>
    rw [List.map_cons, findRow_cons, findRow_cons, List.any_cons]
    by_cases hr : r.video_id = h.video_id
    · rw [if_pos hr]
      by_cases hk : k = h.video_id
      · rw [if_pos hk.symm, if_pos hk,
          if_pos (show (decide (r.video_id = h.video_id)
            || t.any fun r => decide (r.video_id = h.video_id)) = true by simp [hr])]
      · rw [if_neg (fun hh => hk hh.symm),
          if_neg (show ¬ (r.video_id = k) by intro hh; apply hk; rw [← hh]; exact hr),
          ih, if_neg hk, if_neg hk]
    · rw [if_neg hr]
      by_cases hrk : r.video_id = k
      · have hk : ¬ (k = h.video_id) := by intro hh; apply hr; rw [hrk, hh]
        rw [if_pos hrk, if_neg hk, if_pos hrk]
      · rw [if_neg hrk, if_neg hrk, ih]
        by_cases hk : k = h.video_id
        · rw [if_pos hk, if_pos hk]
          have : (decide (r.video_id = h.video_id)
              || t.any fun r => decide (r.video_id = h.video_id))
              = t.any fun r => decide (r.video_id = h.video_id) := by simp [hr]
          rw [this]
        · rw [if_neg hk, if_neg hk]

theorem findRow_mergeRow (t : List Highlight) (h : Highlight) (k : String) :
    findRow (mergeRow t h) k = if k = h.video_id then some h else findRow t k := by
  unfold mergeRow
  by_cases hany : t.any (fun r => decide (r.video_id = h.video_id))
  · rw [if_pos hany, findRow_update]
    simp [hany]
  · rw [if_neg hany]
    by_cases hk : k = h.video_id
    · have hnone : findRow t k = none := by
        apply findRow_eq_none
        rw [hk]
        exact fun hc => hany ((mergeRow_mem_cond t h.video_id).mpr hc)
      unfold findRow at hnone ⊢
      rw [List.find?_append, hnone, Option.none_or]
      simp [List.find?_cons, hk.symm]
    · have hsingle : List.find? (fun r => decide (r.video_id = k)) [h] = none := by
        have hne : ¬ (h.video_id = k) := fun hh => hk hh.symm
        simp [List.find?_cons, hne]
      unfold findRow
      rw [List.find?_append, hsingle, Option.or_none, if_neg hk]

theorem tableKeys_mergeRow (t : List Highlight) (h : Highlight) :
    tableKeys (mergeRow t h)
      = if h.video_id ∈ tableKeys t then tableKeys t
        else tableKeys t ++ [h.video_id] := by
  unfold mergeRow
  by_cases hmem : h.video_id ∈ tableKeys t
  · rw [if_pos ((mergeRow_mem_cond t h.video_id).mpr hmem), if_pos hmem]
    unfold tableKeys
    rw [List.map_map]
    apply List.map_congr_left
    intro r _
    by_cases hr : r.video_id = h.video_id
    · simp [Function.comp, hr]
    · simp [Function.comp, hr]
  · rw [if_neg (fun hc => hmem ((mergeRow_mem_cond t h.video_id).mp hc)), if_neg hmem]
    simp [tableKeys]

theorem NodupKeys_mergeRow (t : List Highlight) (h : Highlight) (hnd : NodupKeys t) :
    NodupKeys (mergeRow t h) := by
  unfold NodupKeys at hnd ⊢
  rw [tableKeys_mergeRow]
  by_cases hmem : h.video_id ∈ tableKeys t
  · rw [if_pos hmem]; exact hnd
  · rw [if_neg hmem]
    simp [List.nodup_append, hnd, hmem]

theorem mergeAll_nil (t : List Highlight) : mergeAll t [] = t := rfl

theorem mergeAll_cons (t : List Highlight) (r : Highlight) (rs : List Highlight) :
    mergeAll t (r :: rs) = mergeAll (mergeRow t r) rs := rfl

theorem lastUpsert_cons (r : Highlight) (rs : List Highlight) (k : String) :
    lastUpsert (r :: rs) k
      = optOr (lastUpsert rs k) (if r.video_id = k then some r else none) := rfl

theorem findRow_mergeAll (recs : List Highlight) :
    ∀ (t : List Highlight) (k : String),
      findRow (mergeAll t recs) k = optOr (lastUpsert recs k) (findRow t k) := by
  induction recs with
  | nil => intro t k; rfl
  | cons r rs ih =>
    intro t k
    rw [mergeAll_cons, ih, lastUpsert_cons, optOr_assoc]
    congr 1
    rw [findRow_mergeRow]
    by_cases h : k = r.video_id
    · rw [if_pos h, if_pos h.symm, optOr_some]
    · rw [if_neg h, if_neg (fun hh => h hh.symm), optOr_none_left]

theorem mem_tableKeys_mergeRow (t : List Highlight) (h : Highlight) (k : String)
    (hk : k ∈ tableKeys t) : k ∈ tableKeys (mergeRow t h) := by
  rw [tableKeys_mergeRow]
  by_cases hm : h.video_id ∈ tableKeys t
  · rw [if_pos hm]; exact hk
  · rw [if_neg hm]; exact List.mem_append_left _ hk

theorem self_mem_tableKeys_mergeRow (t : List Highlight) (h : Highlight) :
    h.video_id ∈ tableKeys (mergeRow t h) := by
  rw [tableKeys_mergeRow]
  by_cases hm : h.video_id ∈ tableKeys t
  · rw [if_pos hm]; exact hm
  · rw [if_neg hm]; exact List.mem_append_right _ (List.mem_singleton.mpr rfl)

theorem mem_tableKeys_mergeAll_of_table (recs : List Highlight) :
    ∀ (t : List Highlight) (k : String), k ∈ tableKeys t → k ∈ tableKeys (mergeAll t recs) := by
  induction recs with
  | nil => intro t k hk; exact hk
  | cons r rs ih =>
    intro t k hk
    rw [mergeAll_cons]
    exact ih _ k (mem_tableKeys_mergeRow t r k hk)

theorem mem_tableKeys_mergeAll_of_recs (recs : List Highlight) :
    ∀ (t : List Highlight) (r : Highlight), r ∈ recs →
      r.video_id ∈ tableKeys (mergeAll t recs) := by
  induction recs with
  | nil => intro t r hr; simp at hr
  | cons r0 rs ih =>
    intro t r hr
    rw [mergeAll_cons]
    rcases List.mem_cons.mp hr with rfl | hr'
    · exact mem_tableKeys_mergeAll_of_table rs _ _ (self_mem_tableKeys_mergeRow t r)
    · exact ih _ r hr'

theorem tableKeys_mergeAll_stable (recs : List Highlight) :
    ∀ (t : List Highlight), (∀ r ∈ recs, r.video_id ∈ tableKeys t) →
      tableKeys (mergeAll t recs) = tableKeys t := by
  induction recs with
  | nil => intro t _; rfl
  | cons r rs ih =>
    intro t hall
    rw [mergeAll_cons]
    have hr : r.video_id ∈ tableKeys t := hall r (List.mem_cons_self r rs)
    have hkeys : tableKeys (mergeRow t r) = tableKeys t := by
      rw [tableKeys_mergeRow, if_pos hr]
    rw [ih (mergeRow t r)
      (fun x hx => by rw [hkeys]; exact hall x (List.mem_cons_of_mem _ hx)), hkeys]

theorem NodupKeys_mergeAll (recs : List Highlight) :
    ∀ (t : List Highlight), NodupKeys t → NodupKeys (mergeAll t recs) := by
  induction recs with
  | nil => intro t h; exact h
  | cons r rs ih =>
    intro t h
    rw [mergeAll_cons]
    exact ih _ (NodupKeys_mergeRow t r h)

theorem table_ext : ∀ (t1 t2 : List Highlight), NodupKeys t1 → NodupKeys t2 →
    tableKeys t1 = tableKeys t2 → (∀ k, findRow t1 k = findRow t2 k) → t1 = t2 := by
  intro t1
  induction t1 with
  | nil =>
    intro t2 _ _ hkeys _
    cases t2 with
    | nil => rfl
    | cons r t2 => simp [tableKeys] at hkeys
  | cons r1 t1 ih =>
    intro t2 h1 h2 hkeys hfind
    cases t2 with
    | nil => simp [tableKeys] at hkeys
    | cons r2 t2 =>
      rw [tableKeys_cons, tableKeys_cons] at hkeys
      injection hkeys with hhead htail
      unfold NodupKeys at h1 h2
      rw [tableKeys_cons] at h1 h2
      obtain ⟨hnot1, hnd1⟩ := List.nodup_cons.mp h1
      obtain ⟨hnot2, hnd2⟩ := List.nodup_cons.mp h2
      have hr : r1 = r2 := by
        have hf := hfind r1.video_id
        rw [findRow_cons, findRow_cons, if_pos rfl, if_pos hhead.symm] at hf
        exact Option.some.inj hf
      have ht : t1 = t2 := by
        apply ih t2 hnd1 hnd2 htail
        intro k
        by_cases hk : r1.video_id = k
        · rw [findRow_eq_none t1 k (by rw [← hk]; exact hnot1),
            findRow_eq_none t2 k (by rw [← hk, hhead]; exact hnot2)]
        · have hf := hfind k
          rw [findRow_cons, findRow_cons, if_neg hk,
            if_neg (show ¬ (r2.video_id = k) by rw [← hhead]; exact hk)] at hf
          exact hf
      rw [hr, ht]

/-! ### The try block of update_database -/

theorem tryLoop_nil (f : Option (Nat × String)) (i : Nat) (s : Session) :
    tryLoop f [] i s = .ok s := rfl

theorem tryLoop_cons_none (r : Highlight) (rs : List Highlight) (i : Nat) (s : Session) :
    tryLoop none (r :: rs) i s = tryLoop none rs (i + 1) (sessionMerge s r) := rfl

theorem tryLoop_cons_some (k : Nat) (e : String) (r : Highlight) (rs : List Highlight)
    (i : Nat) (s : Session) :
    tryLoop (some (k, e)) (r :: rs) i s
      = if k = i then .error (e, s)
        else tryLoop (some (k, e)) rs (i + 1) (sessionMerge s r) := rfl

theorem tryLoop_none (recs : List Highlight) :
    ∀ (i : Nat) (s : Session),
      tryLoop none recs i s = .ok ⟨s.stored, mergeAll s.pending recs⟩ := by
  induction recs with
  | nil =>
    intro i s
    cases s
    rfl
  | cons r rs ih =>
    intro i s
    rw [tryLoop_cons_none, ih]
    rfl

theorem tryLoop_stored (f : Option (Nat × String)) (recs : List Highlight) :
    ∀ (i : Nat) (s : Session),
      (resultSession (tryLoop f recs i s)).stored = s.stored := by
  induction recs with
  | nil => intro i s; rfl
  | cons r rs ih =>
    intro i s
    cases f with
    | none => exact ih (i + 1) (sessionMerge s r)
    | some p =>
      obtain ⟨k, e⟩ := p
      rw [tryLoop_cons_some]
      by_cases hki : k = i
      · rw [if_pos hki]; rfl
      · rw [if_neg hki]; exact ih (i + 1) (sessionMerge s r)

theorem tryLoop_fires (recs : List Highlight) :
    ∀ (i k : Nat) (e : String) (s : Session), i ≤ k → k < i + recs.length →
      ∃ s', tryLoop (some (k, e)) recs i s = .error (e, s') := by
  induction recs with
  | nil =>
    intro i k e s hik hk
    simp at hk
    omega
  | cons r rs ih =>
    intro i k e s hik hk
    rw [tryLoop_cons_some]
    by_cases hki : k = i
    · rw [if_pos hki]
      exact ⟨s, rfl⟩
    · rw [if_neg hki]
      apply ih (i + 1) k e (sessionMerge s r) (by omega)
      simp only [List.length_cons] at hk
      omega

theorem tryLoop_completes (recs : List Highlight) :
    ∀ (i k : Nat) (e : String) (s : Session), i + recs.length ≤ k →
      ∃ s', tryLoop (some (k, e)) recs i s = .ok s' := by
  induction recs with
  | nil => intro i k e s _; exact ⟨s, rfl⟩
  | cons r rs ih =>
    intro i k e s hk
    rw [tryLoop_cons_some]
    simp only [List.length_cons] at hk
    rw [if_neg (by omega)]
    exact ih (i + 1) k e (sessionMerge s r) (by omega)

theorem update_database_init_fail (t recs : List Highlight) (e : String)
    (f : Option (Nat × String)) :
    update_database t recs (some e) f = ⟨t, [], none, some e⟩ := rfl

theorem update_database_none (t recs : List Highlight) :
    update_database t recs none none
      = ⟨mergeAll t recs, [DbMessage.upserted recs.length], none, none⟩ := by
  simp only [update_database]
  rw [tryLoop_none]
  rfl

theorem update_database_fail (t recs : List Highlight) (k : Nat) (e : String)
    (hk : k ≤ recs.length) :
    update_database t recs none (some (k, e))
      = ⟨t, [DbMessage.dbError e], none, none⟩ := by
  simp only [update_database]
  by_cases hlt : k < recs.length
  · obtain ⟨s', hs'⟩ := tryLoop_fires recs 0 k e ⟨t, t⟩ (Nat.zero_le k) (by omega)
    have hst : s'.stored = t := by
      have hpre := tryLoop_stored (some (k, e)) recs 0 ⟨t, t⟩
      rw [hs'] at hpre
      exact hpre
    rw [hs']
    simp [sessionRollback, hst]
  · have hk' : k = recs.length := by omega
    obtain ⟨s', hs'⟩ := tryLoop_completes recs 0 k e ⟨t, t⟩ (by omega)
    have hst : s'.stored = t := by
      have hpre := tryLoop_stored (some (k, e)) recs 0 ⟨t, t⟩
      rw [hs'] at hpre
      exact hpre
    rw [hs']
    simp [hk', sessionRollback, hst]

theorem update_database_ret (t recs : List Highlight) (f : Option (Nat × String)) :
    (update_database t recs none f).ret = none := by
  simp only [update_database]
  cases htl : tryLoop f recs 0 ⟨t, t⟩ with
  | ok s =>
    cases f with
    | none => simp [htl]
    | some p =>
      obtain ⟨k, e⟩ := p
      by_cases hke : k = recs.length
      · simp [htl, hke]
      · simp [htl, hke]
  | error es =>
    obtain ⟨e, s⟩ := es
    simp [htl]

theorem update_database_raised (t recs : List Highlight) (f : Option (Nat × String)) :
    (update_database t recs none f).raised = none := by
  simp only [update_database]
  cases htl : tryLoop f recs 0 ⟨t, t⟩ with
  | ok s =>
    cases f with
    | none => simp [htl]
    | some p =>
      obtain ⟨k, e⟩ := p
      by_cases hke : k = recs.length
      · simp [htl, hke]
      · simp [htl, hke]
  | error es =>
    obtain ⟨e, s⟩ := es
    simp [htl]

/-! ### Claims about update_database -/

/-- Claim C1: running `update_database` twice with the same records gives
the same final table as running it once — the second run changes neither
the row count nor any field of any row, and no `video_id` is duplicated —
assuming the primary-key invariant of the initial table. -/
theorem update_database_idempotent (t recs : List Highlight) (h : NodupKeys t) :
    (update_database (update_database t recs none none).table recs none none).table
        = (update_database t recs none none).table
    ∧ (update_database (update_database t recs none none).table recs none none).table.length
        = (update_database t recs none none).table.length
    ∧ NodupKeys (update_database t recs none none).table := by
  have hmain :
      (update_database (update_database t recs none none).table recs none none).table
        = (update_database t recs none none).table := by
    rw [update_database_none t recs]
    rw [update_database_none (mergeAll t recs) recs]
    apply table_ext
    · exact NodupKeys_mergeAll recs _ (NodupKeys_mergeAll recs t h)
    · exact NodupKeys_mergeAll recs t h
    · exact tableKeys_mergeAll_stable recs _
        (fun r hr => mem_tableKeys_mergeAll_of_recs recs t r hr)
    · intro k
      simp only [findRow_mergeAll]
      cases lastUpsert recs k <;> rfl
  refine ⟨hmain, by rw [hmain], ?_⟩
  rw [update_database_none t recs]
  exact NodupKeys_mergeAll recs t h

/-- Concrete run of the C1 theorem: an empty table and a batch containing
two records with the same id. -/
theorem update_database_idempotent_witness :
    (update_database
        (update_database [] [⟨"v", "t1", none, none, some 1⟩,
          ⟨"v", "t2", none, none, some 2⟩] none none).table
        [⟨"v", "t1", none, none, some 1⟩, ⟨"v", "t2", none, none, some 2⟩]
        none none).table
      = (update_database [] [⟨"v", "t1", none, none, some 1⟩,
          ⟨"v", "t2", none, none, some 2⟩] none none).table
    ∧ (update_database
        (update_database [] [⟨"v", "t1", none, none, some 1⟩,
          ⟨"v", "t2", none, none, some 2⟩] none none).table
        [⟨"v", "t1", none, none, some 1⟩, ⟨"v", "t2", none, none, some 2⟩]
        none none).table.length
      = (update_database [] [⟨"v", "t1", none, none, some 1⟩,
          ⟨"v", "t2", none, none, some 2⟩] none none).table.length
    ∧ NodupKeys (update_database [] [⟨"v", "t1", none, none, some 1⟩,
        ⟨"v", "t2", none, none, some 2⟩] none none).table :=
  update_database_idempotent []
    [⟨"v", "t1", none, none, some 1⟩, ⟨"v", "t2", none, none, some 2⟩] (by decide)

/-- Claim C5: a SQLAlchemyError raised at any point of the upsert batch
(before, between, or at commit) rolls the whole batch back: the stored
table is unchanged and the error is reported. -/
theorem update_database_rolls_back (t recs : List Highlight) (k : Nat) (e : String)
    (hk : k ≤ recs.length) :
    (update_database t recs none (some (k, e))).table = t
    ∧ (update_database t recs none (some (k, e))).printed = [DbMessage.dbError e] := by
  rw [update_database_fail t recs k e hk]
  exact ⟨rfl, rfl⟩

/-- Concrete run of the C5 theorem: the error fires at the first merge of a
two-record batch over a non-empty table. -/
theorem update_database_rolls_back_witness :
    (update_database [⟨"old", "t", none, none, none⟩]
        [⟨"v1", "t1", none, none, some 1⟩, ⟨"v2", "t2", none, none, some 2⟩]
        none (some (0, "boom"))).table = [⟨"old", "t", none, none, none⟩]
    ∧ (update_database [⟨"old", "t", none, none, none⟩]
        [⟨"v1", "t1", none, none, some 1⟩, ⟨"v2", "t2", none, none, some 2⟩]
        none (some (0, "boom"))).printed = [DbMessage.dbError "boom"] :=
  update_database_rolls_back [⟨"old", "t", none, none, none⟩]
    [⟨"v1", "t1", none, none, some 1⟩, ⟨"v2", "t2", none, none, some 2⟩] 0 "boom"
    (by decide)

/-- Claim C7 counterexample: `update_database` does not return the count of
records processed — on a one-record input it returns Python None (`ret` is
`none`), not the count 1. -/
theorem update_database_ret_counterexample :
    ([(⟨"v", "t", none, none, none⟩ : Highlight)].length = 1)
    ∧ (update_database [] [⟨"v", "t", none, none, none⟩] none none).ret ≠ some 1 := by
  decide

/-- Claim C7 (amended): `update_database` returns None; the count of
records processed — the length of the input sequence — is only reported in
the printed success message. -/
theorem update_database_reports_count (t recs : List Highlight) :
    (update_database t recs none none).printed = [DbMessage.upserted recs.length]
    ∧ (update_database t recs none none).ret = none := by
  rw [update_database_none]
  exact ⟨rfl, rfl⟩

/-- Claim C10 counterexample: `update_database` can raise a storage-layer
exception to its caller — `init_db()` runs before the `try` block, and a
SQLAlchemyError raised by it escapes the call instead of being rolled
back, printed, and returned from normally. -/
theorem update_database_raises_counterexample :
    (update_database [] [⟨"v", "t", none, none, none⟩] (some "boom") none).raised
        = some "boom"
    ∧ (update_database [] [⟨"v", "t", none, none, none⟩] (some "boom") none).printed
        = [] := by
  decide

/-- Claim C10 (amended): `update_database` never raises from within the
upsert try block — a SQLAlchemyError at any merge or at commit is caught,
rolled back, printed, and the call returns None exactly like a successful
run; but `init_db()`, which runs before the try block, propagates its
SQLAlchemyError to the caller. -/
theorem update_database_never_raises (t recs : List Highlight)
    (f : Option (Nat × String)) :
    (update_database t recs none f).raised = none
    ∧ (update_database t recs none f).ret = none
    ∧ (update_database t recs none f).ret = (update_database t recs none none).ret
    ∧ ∀ e, (update_database t recs (some e) f).raised = some e := by
  refine ⟨update_database_raised t recs f, update_database_ret t recs f, ?_, ?_⟩
  · rw [update_database_ret t recs f, update_database_ret t recs none]
  · intro e
    rw [update_database_init_fail]

/-! ### The keyword loop of fetch_highlights -/

theorem addVideo_mem (av : List Video) (seen : List String) (v : Video)
    (hm : v.video_id ∈ seen) : addVideo (av, seen) v = (av, seen) := by
  simp [addVideo, hm]

theorem addVideo_not_mem (av : List Video) (seen : List String) (v : Video)
    (hm : v.video_id ∉ seen) :
    addVideo (av, seen) v = (av ++ [v], seen ++ [v.video_id]) := by
  simp [addVideo, hm]

theorem addVideos_nil (acc : List Video × List String) : addVideos acc [] = acc := rfl

theorem addVideos_cons (acc : List Video × List String) (v : Video) (vs : List Video) :
    addVideos acc (v :: vs) = addVideos (addVideo acc v) vs := rfl

theorem dedupFirstAux_nil (seen : List String) : dedupFirstAux seen [] = [] := rfl

theorem dedupFirstAux_cons (seen : List String) (v : Video) (vs : List Video) :
    dedupFirstAux seen (v :: vs)
      = if v.video_id ∈ seen then dedupFirstAux seen vs
        else v :: dedupFirstAux (seen ++ [v.video_id]) vs := rfl

theorem addVideos_eq (vs : List Video) :
    ∀ (av : List Video) (seen : List String),
      addVideos (av, seen) vs
        = (av ++ dedupFirstAux seen vs,
           seen ++ (dedupFirstAux seen vs).map (fun v => v.video_id)) := by
  induction vs with
  | nil => intro av seen; simp [addVideos_nil, dedupFirstAux_nil]
  | cons v vs ih =>
    intro av seen
    rw [addVideos_cons, dedupFirstAux_cons]
    by_cases hm : v.video_id ∈ seen
    · rw [addVideo_mem av seen v hm, ih, if_pos hm]
    · rw [addVideo_not_mem av seen v hm, ih, if_neg hm]
      simp [List.append_assoc]

theorem dedupFirstAux_append (xs : List Video) :
    ∀ (seen : List String) (ys : List Video),
      dedupFirstAux seen (xs ++ ys)
        = dedupFirstAux seen xs
          ++ dedupFirstAux
              (seen ++ (dedupFirstAux seen xs).map (fun v => v.video_id)) ys := by
  induction xs with
  | nil => intro seen ys; simp [dedupFirstAux_nil]
  | cons x xs ih =>
    intro seen ys
    rw [List.cons_append, dedupFirstAux_cons, dedupFirstAux_cons]
    by_cases hm : x.video_id ∈ seen
    · rw [if_pos hm, if_pos hm, ih]
    · rw [if_neg hm, if_neg hm, ih]
      simp [List.append_assoc]

theorem dedupFirstAux_nodup (l : List Video) :
    ∀ (seen : List String),
      ((dedupFirstAux seen l).map (fun v => v.video_id)).Nodup
      ∧ ∀ k ∈ (dedupFirstAux seen l).map (fun v => v.video_id), k ∉ seen := by
  induction l with
  | nil =>
    intro seen
    constructor
    · simp [dedupFirstAux_nil]
    · simp [dedupFirstAux_nil]
  | cons v vs ih =>
    intro seen
    rw [dedupFirstAux_cons]
    by_cases hm : v.video_id ∈ seen
    · rw [if_pos hm]
      exact ih seen
    · rw [if_neg hm]
      obtain ⟨hnd, hnot⟩ := ih (seen ++ [v.video_id])
      rw [List.map_cons]
      constructor
      · rw [List.nodup_cons]
        refine ⟨?_, hnd⟩
        intro hc
        exact hnot _ hc (List.mem_append_right _ (by simp))
      · intro k hk hkseen
        rcases List.mem_cons.mp hk with rfl | hk'
        · exact hm hkseen
        · exact hnot k hk' (List.mem_append_left _ hkseen)

theorem okResults_ok (y : Youtube) (term : String) (vs : List Video)
    (hs : search_videos y term = .ok vs) : okResults y term = vs := by
  unfold okResults
  rw [hs]

theorem okResults_error (y : Youtube) (term : String) (e : RunError)
    (hs : search_videos y term = .error e) : okResults y term = [] := by
  unfold okResults
  rw [hs]

theorem gatherVideos_nil (y : Youtube) (acc : List Video × List String) :
    gatherVideos y [] acc = .ok acc := rfl

theorem gatherVideos_cons (y : Youtube) (term : String) (rest : List String)
    (acc : List Video × List String) :
    gatherVideos y (term :: rest) acc
      = match search_videos y term with
        | .ok videos => gatherVideos y rest (addVideos acc videos)
        | .error (RunError.httpError _) => gatherVideos y rest acc
        | .error e => .error e := rfl

theorem gatherVideos_cons_ok (y : Youtube) (term : String) (rest : List String)
    (acc : List Video × List String) (vs : List Video)
    (hs : search_videos y term = .ok vs) :
    gatherVideos y (term :: rest) acc = gatherVideos y rest (addVideos acc vs) := by
  rw [gatherVideos_cons, hs]

theorem gatherVideos_cons_http (y : Youtube) (term : String) (rest : List String)
    (acc : List Video × List String) (e : String)
    (hs : search_videos y term = .error (RunError.httpError e)) :
    gatherVideos y (term :: rest) acc = gatherVideos y rest acc := by
  rw [gatherVideos_cons, hs]

theorem gatherVideos_cons_value (y : Youtube) (term : String) (rest : List String)
    (acc : List Video × List String) (s : String)
    (hs : search_videos y term = .error (RunError.valueError s)) :
    gatherVideos y (term :: rest) acc = .error (RunError.valueError s) := by
  rw [gatherVideos_cons, hs]

theorem gatherVideos_ok (y : Youtube) (kws : List String) :
    ∀ (av : List Video) (seen : List String) (out : List Video × List String),
      gatherVideos y kws (av, seen) = .ok out →
      out.1 = av ++ dedupFirstAux seen ((kws.map (okResults y)).flatten)
      ∧ out.2 = seen
          ++ (dedupFirstAux seen ((kws.map (okResults y)).flatten)).map
              (fun v => v.video_id) := by
  induction kws with
  | nil =>
    intro av seen out h
    rw [gatherVideos_nil] at h
    have hout : (av, seen) = out := Except.ok.inj h
    rw [← hout]
    simp [dedupFirstAux_nil]
  | cons term rest ih =>
    intro av seen out h
    cases hsv : search_videos y term with
    | ok vs =>
      rw [gatherVideos_cons_ok y term rest _ vs hsv, addVideos_eq] at h
      obtain ⟨h1, h2⟩ := ih _ _ _ h
      constructor
      · rw [h1, List.map_cons, List.flatten_cons, okResults_ok y term vs hsv,
          dedupFirstAux_append, List.append_assoc]
      · rw [h2, List.map_cons, List.flatten_cons, okResults_ok y term vs hsv,
          dedupFirstAux_append, List.map_append, List.append_assoc]
    | error e =>
      cases e with
      | httpError e0 =>
        rw [gatherVideos_cons_http y term rest _ e0 hsv] at h
        obtain ⟨h1, h2⟩ := ih _ _ _ h
        constructor
        · rw [h1, List.map_cons, List.flatten_cons, okResults_error y term _ hsv,
            List.nil_append]
        · rw [h2, List.map_cons, List.flatten_cons, okResults_error y term _ hsv,
            List.nil_append]
      | valueError s =>
        rw [gatherVideos_cons_value y term rest _ s hsv] at h
        exact absurd h (by simp)
      | systemExit s =>
        rw [gatherVideos_cons, hsv] at h
        exact absurd h (by simp)

/-! ### Unfolding fetch_highlights -/

theorem fetch_highlights_cond (apiKey : String) (hk : apiKey ≠ "") :
    ¬ (some apiKey = none ∨ some apiKey = some "") := by
  rintro (h | h)
  · exact Option.noConfusion h
  · exact hk (Option.some.inj h)

theorem fetch_highlights_ok_eq (apiKey : String) (hk : apiKey ≠ "") (y : Youtube)
    (kws : List String) (av : List Video) (seen : List String)
    (hg : gatherVideos y kws ([], []) = .ok (av, seen)) :
    fetch_highlights (some apiKey) y kws = .ok
      { records := av.map (fun v =>
          { video_id := v.video_id, title := v.title, channel_title := v.channel_title,
            published_at := v.published_at,
            views := (dictGet (fetch_statistics y (av.map (fun v => v.video_id))).2
              v.video_id).getD 0 }),
        statsIds := av.map (fun v => v.video_id),
        statsCalls := (fetch_statistics y (av.map (fun v => v.video_id))).1,
        stats := (fetch_statistics y (av.map (fun v => v.video_id))).2 } := by
  unfold fetch_highlights
  rw [if_neg (fetch_highlights_cond apiKey hk), hg]

theorem fetch_highlights_err_eq (apiKey : String) (hk : apiKey ≠ "") (y : Youtube)
    (kws : List String) (e : RunError)
    (hg : gatherVideos y kws ([], []) = .error e) :
    fetch_highlights (some apiKey) y kws = .error e := by
  unfold fetch_highlights
  rw [if_neg (fetch_highlights_cond apiKey hk), hg]

theorem fetch_highlights_ok_elim (apiKey : Option String) (y : Youtube)
    (kws : List String) (out : FetchResult)
    (h : fetch_highlights apiKey y kws = .ok out) :
    ∃ av seen, gatherVideos y kws ([], []) = .ok (av, seen)
      ∧ out.statsIds = av.map (fun v => v.video_id)
      ∧ out.records = av.map (fun v =>
          { video_id := v.video_id, title := v.title, channel_title := v.channel_title,
            published_at := v.published_at,
            views := (dictGet (fetch_statistics y (av.map (fun v => v.video_id))).2
              v.video_id).getD 0 })
      ∧ out.stats = (fetch_statistics y (av.map (fun v => v.video_id))).2 := by
  unfold fetch_highlights at h
  by_cases hc : (apiKey = none ∨ apiKey = some "")
  · rw [if_pos hc] at h
    exact absurd h (by simp)
  · rw [if_neg hc] at h
    cases hg : gatherVideos y kws ([], []) with
    | error e =>
      rw [hg] at h
      exact absurd h (by simp)
    | ok acc =>
      obtain ⟨av, seen⟩ := acc
      rw [hg] at h
      have hout := Except.ok.inj h
      exact ⟨av, seen, rfl, by rw [← hout], by rw [← hout], by rw [← hout]⟩

theorem map_recordVideo_build (y : Youtube) (av : List Video) :
    ((av.map (fun v =>
      ({ video_id := v.video_id, title := v.title, channel_title := v.channel_title,
         published_at := v.published_at,
         views := (dictGet (fetch_statistics y (av.map (fun v => v.video_id))).2
           v.video_id).getD 0 } : Record))).map recordVideo) = av := by
  rw [List.map_map]
  have hid : av.map (recordVideo ∘ (fun v =>
      ({ video_id := v.video_id, title := v.title, channel_title := v.channel_title,
         published_at := v.published_at,
         views := (dictGet (fetch_statistics y (av.map (fun v => v.video_id))).2
           v.video_id).getD 0 } : Record))) = av.map id :=
    List.map_congr_left (fun v _ => rfl)
  rw [hid, List.map_id]

/-! ### Claims about fetch_highlights -/

/-- Claim C2: on every successful run, the candidate list contains each
video id at most once, the id list handed to the Statistics Resolver has no
repeated id, and each candidate sits at the position given by the first
keyword (in source order) that surfaced it — later re-discoveries are
dropped. -/
theorem fetch_highlights_dedup (apiKey : Option String) (y : Youtube)
    (kws : List String) (out : FetchResult)
    (h : fetch_highlights apiKey y kws = .ok out) :
    out.statsIds.Nodup
    ∧ out.statsIds = out.records.map (fun r => r.video_id)
    ∧ out.records.map recordVideo = dedupFirst ((kws.map (okResults y)).flatten) := by
  obtain ⟨av, seen, hg, hids, hrecs, hstats⟩ := fetch_highlights_ok_elim apiKey y kws out h
  have hav : av = dedupFirst ((kws.map (okResults y)).flatten) := by
    have h1 := (gatherVideos_ok y kws [] [] (av, seen) hg).1
    simpa [dedupFirst] using h1
  refine ⟨?_, ?_, ?_⟩
  · rw [hids, hav]
    exact (dedupFirstAux_nodup _ []).1
  · rw [hids, hrecs, List.map_map]
    rfl
  · rw [hrecs]
    exact (map_recordVideo_build y av).trans hav

/-- Concrete run of the C2 theorem: a single keyword with an empty result
page. -/
theorem fetch_highlights_dedup_witness :
    (FetchResult.statsIds ⟨[], [], [], []⟩).Nodup
    ∧ FetchResult.statsIds ⟨[], [], [], []⟩
        = (FetchResult.records ⟨[], [], [], []⟩).map (fun r => r.video_id)
    ∧ (FetchResult.records ⟨[], [], [], []⟩).map recordVideo
        = dedupFirst
            (((["a"] : List String).map
              (okResults ⟨fun _ => .ok [], fun _ => []⟩)).flatten) :=
  fetch_highlights_dedup (some "k") ⟨fun _ => .ok [], fun _ => []⟩ ["a"]
    ⟨[], [], [], []⟩ (by decide)

/-- Claim C4: with three keywords where the second raises a recoverable
HttpError and the first and third succeed, the run completes normally and
the candidate set is the deduplicated union of the results of keywords 1
and 3 only. -/
theorem fetch_highlights_skips_failed_term (apiKey : String) (hk : apiKey ≠ "")
    (y : Youtube) (k1 k2 k3 : String) (r1 r3 : List Video) (e : String)
    (h1 : search_videos y k1 = .ok r1)
    (h2 : search_videos y k2 = .error (RunError.httpError e))
    (h3 : search_videos y k3 = .ok r3) :
    (fetch_highlights (some apiKey) y [k1, k2, k3]).toOption.map
        (fun out => out.records.map recordVideo)
      = some (dedupFirst (r1 ++ r3)) := by
  have hg : gatherVideos y [k1, k2, k3] ([], [])
      = .ok (addVideos (addVideos ([], []) r1) r3) := by
    rw [gatherVideos_cons_ok y k1 [k2, k3] _ r1 h1,
      gatherVideos_cons_http y k2 [k3] _ e h2,
      gatherVideos_cons_ok y k3 [] _ r3 h3, gatherVideos_nil]
  have hflat : (([k1, k2, k3].map (okResults y)).flatten) = r1 ++ r3 := by
    simp [okResults_ok y k1 r1 h1, okResults_error y k2 _ h2, okResults_ok y k3 r3 h3]
  obtain ⟨av, seen, heq⟩ :
      ∃ av seen, addVideos (addVideos ([], []) r1) r3 = (av, seen) :=
    ⟨_, _, rfl⟩
  rw [heq] at hg
  rw [fetch_highlights_ok_eq apiKey hk y [k1, k2, k3] av seen hg]
  have hav : av = dedupFirst (r1 ++ r3) := by
    have hh := (gatherVideos_ok y [k1, k2, k3] [] [] (av, seen) hg).1
    rw [hflat] at hh
    simpa [dedupFirst] using hh
  simp only [Except.toOption]
  rw [Option.map_some']
  congr 1
  exact (map_recordVideo_build y av).trans hav

/-- Concrete run of the C4 theorem: keyword "b" hits a quota error, "a" and
"c" return one video each. -/
theorem fetch_highlights_skips_failed_term_witness :
    (fetch_highlights (some "k")
        ⟨fun t =>
            if t = "b" then .error "quota"
            else if t = "a" then .ok [⟨"v1", "t1", "c1", "2024-01-02T03:04:05Z"⟩]
            else .ok [⟨"v2", "t2", "c2", "2024-01-03T03:04:05Z"⟩],
          fun _ => []⟩
        ["a", "b", "c"]).toOption.map (fun out => out.records.map recordVideo)
      = some (dedupFirst ([⟨"v1", "t1", "c1", ⟨2024, 1, 2, 3, 4, 5⟩⟩]
          ++ [⟨"v2", "t2", "c2", ⟨2024, 1, 3, 3, 4, 5⟩⟩])) :=
  fetch_highlights_skips_failed_term "k" (by decide)
    ⟨fun t =>
        if t = "b" then .error "quota"
        else if t = "a" then .ok [⟨"v1", "t1", "c1", "2024-01-02T03:04:05Z"⟩]
        else .ok [⟨"v2", "t2", "c2", "2024-01-03T03:04:05Z"⟩],
      fun _ => []⟩
    "a" "b" "c" [⟨"v1", "t1", "c1", ⟨2024, 1, 2, 3, 4, 5⟩⟩]
    [⟨"v2", "t2", "c2", ⟨2024, 1, 3, 3, 4, 5⟩⟩] "quota"
    (by decide) (by decide) (by decide)

/-- Claim C6: a candidate whose id is absent from the statistics mapping is
assembled (and hence persisted) with views equal to 0 — never null and
never negative. -/
theorem fetch_highlights_default_views (apiKey : Option String) (y : Youtube)
    (kws : List String) (out : FetchResult) (r : Record)
    (h : fetch_highlights apiKey y kws = .ok out)
    (hr : r ∈ out.records)
    (habs : dictGet out.stats r.video_id = none) :
    r.views = 0 := by
  obtain ⟨av, seen, hg, hids, hrecs, hstats⟩ := fetch_highlights_ok_elim apiKey y kws out h
  rw [hrecs] at hr
  obtain ⟨v, hv, rfl⟩ := List.mem_map.mp hr
  rw [hstats] at habs
  have habs' : dictGet (fetch_statistics y (av.map (fun v => v.video_id))).2
      v.video_id = none := habs
  show (dictGet (fetch_statistics y (av.map (fun v => v.video_id))).2 v.video_id).getD 0
      = 0
  rw [habs']
  rfl

/-- Concrete run of the C6 theorem: one candidate, an empty statistics
response, so the assembled record carries views 0. -/
theorem fetch_highlights_default_views_witness :
    (⟨"v1", "t1", "c1", ⟨2024, 1, 2, 3, 4, 5⟩, 0⟩ : Record).views = 0 :=
  fetch_highlights_default_views (some "k")
    ⟨fun _ => .ok [⟨"v1", "t1", "c1", "2024-01-02T03:04:05Z"⟩], fun _ => []⟩ ["a"]
    ⟨[⟨"v1", "t1", "c1", ⟨2024, 1, 2, 3, 4, 5⟩, 0⟩], ["v1"], ["v1"], []⟩
    ⟨"v1", "t1", "c1", ⟨2024, 1, 2, 3, 4, 5⟩, 0⟩
    (by decide) (by decide) (by decide)

/-! ### Propagation of timestamp parse errors -/

theorem parseItem_bad (it : RawSearchItem) (hbad : parseTimestamp it.publishedAt = none) :
    parseItem it = .error (RunError.valueError it.publishedAt) := by
  unfold parseItem
  rw [hbad]

theorem parseItem_error_shape (it : RawSearchItem) (e : RunError)
    (h : parseItem it = .error e) : ∃ s, e = RunError.valueError s := by
  unfold parseItem at h
  cases hts : parseTimestamp it.publishedAt with
  | some ts =>
    rw [hts] at h
    exact absurd h (by simp)
  | none =>
    rw [hts] at h
    exact ⟨it.publishedAt, (Except.error.inj h).symm⟩

theorem parseItems_cons (it : RawSearchItem) (its : List RawSearchItem) :
    parseItems (it :: its)
      = match parseItem it with
        | .error e => .error e
        | .ok v =>
          match parseItems its with
          | .error e => .error e
          | .ok vs => .ok (v :: vs) := rfl

theorem parseItems_error (items : List RawSearchItem)
    (h : ∃ it ∈ items, parseTimestamp it.publishedAt = none) :
    ∃ s, parseItems items = .error (RunError.valueError s) := by
  induction items with
  | nil =>
    obtain ⟨it, hit, _⟩ := h
    simp at hit
  | cons it its ih =>
    obtain ⟨x, hx, hbad⟩ := h
    rcases List.mem_cons.mp hx with rfl | hx'
    · refine ⟨x.publishedAt, ?_⟩
      rw [parseItems_cons, parseItem_bad x hbad]
    · cases hpi : parseItem it with
      | error e =>
        obtain ⟨s, rfl⟩ := parseItem_error_shape it e hpi
        exact ⟨s, by rw [parseItems_cons, hpi]⟩
      | ok v =>
        obtain ⟨s, hs⟩ := ih ⟨x, hx', hbad⟩
        refine ⟨s, ?_⟩
        rw [parseItems_cons, hpi, hs]

theorem search_videos_value_error (y : Youtube) (term : String)
    (items : List RawSearchItem) (it : RawSearchItem)
    (hresp : y.searchList term = .ok items) (hit : it ∈ items)
    (hbad : parseTimestamp it.publishedAt = none) :
    ∃ s, search_videos y term = .error (RunError.valueError s) := by
  obtain ⟨s, hs⟩ := parseItems_error items ⟨it, hit, hbad⟩
  refine ⟨s, ?_⟩
  unfold search_videos
  rw [hresp]
  exact hs

theorem parseItems_no_exit (items : List RawSearchItem) (m : String) :
    parseItems items ≠ .error (RunError.systemExit m) := by
  induction items with
  | nil => exact fun h => Except.noConfusion h
  | cons it its ih =>
    intro h
    rw [parseItems_cons] at h
    cases hpi : parseItem it with
    | error e =>
      rw [hpi] at h
      obtain ⟨s, rfl⟩ := parseItem_error_shape it e hpi
      exact absurd (Except.error.inj h) (by simp)
    | ok v =>
      rw [hpi] at h
      cases hps : parseItems its with
      | error e =>
        rw [hps] at h
        have he := Except.error.inj h
        rw [he] at hps
        exact ih hps
      | ok vs =>
        rw [hps] at h
        exact absurd h (by simp)

theorem search_videos_no_exit (y : Youtube) (term : String) (m : String) :
    search_videos y term ≠ .error (RunError.systemExit m) := by
  intro h
  unfold search_videos at h
  cases hresp : y.searchList term with
  | error e =>
    rw [hresp] at h
    exact absurd (Except.error.inj h) (by simp)
  | ok items =>
    rw [hresp] at h
    exact parseItems_no_exit items m h

theorem gatherVideos_value_error (y : Youtube) (kws : List String) :
    ∀ (acc : List Video × List String),
      (∃ term ∈ kws, ∃ s, search_videos y term = .error (RunError.valueError s)) →
      ∃ s, gatherVideos y kws acc = .error (RunError.valueError s) := by
  induction kws with
  | nil =>
    rintro acc ⟨t, ht, _⟩
    simp at ht
  | cons term rest ih =>
    rintro acc ⟨t, ht, s0, hs0⟩
    rcases List.mem_cons.mp ht with rfl | ht'
    · exact ⟨s0, gatherVideos_cons_value y t rest acc s0 hs0⟩
    · cases hsv : search_videos y term with
      | ok vs =>
        obtain ⟨s, hs⟩ := ih _ ⟨t, ht', s0, hs0⟩
        exact ⟨s, by rw [gatherVideos_cons_ok y term rest acc vs hsv]; exact hs⟩
      | error e =>
        cases e with
        | httpError e0 =>
          obtain ⟨s, hs⟩ := ih _ ⟨t, ht', s0, hs0⟩
          exact ⟨s, by rw [gatherVideos_cons_http y term rest acc e0 hsv]; exact hs⟩
        | valueError s1 =>
          exact ⟨s1, gatherVideos_cons_value y term rest acc s1 hsv⟩
        | systemExit s1 =>
          exact absurd hsv (search_videos_no_exit y term s1)

/-- Claim C8: a publish timestamp in a search response that fails to parse
against the fixed format raises a ValueError that is not caught by the
per-term HttpError handling and is not defaulted: the whole run aborts with
that ValueError. -/
theorem parse_error_propagates (apiKey : String) (hk : apiKey ≠ "") (y : Youtube)
    (kws : List String) (term : String) (hterm : term ∈ kws)
    (items : List RawSearchItem) (hresp : y.searchList term = .ok items)
    (it : RawSearchItem) (hit : it ∈ items)
    (hbad : parseTimestamp it.publishedAt = none) :
    isValueError (fetch_highlights (some apiKey) y kws) = true := by
  obtain ⟨s0, hs0⟩ := search_videos_value_error y term items it hresp hit hbad
  obtain ⟨s, hs⟩ := gatherVideos_value_error y kws ([], []) ⟨term, hterm, s0, hs0⟩
  rw [fetch_highlights_err_eq apiKey hk y kws _ hs]
  rfl

/-- Concrete run of the C8 theorem: the only search item of the only
keyword carries an unparseable timestamp, and the run aborts with a
ValueError. -/
theorem parse_error_propagates_witness :
    isValueError (fetch_highlights (some "k")
        ⟨fun _ => .ok [⟨"v1", "t1", "c1", "bad-timestamp"⟩], fun _ => []⟩ ["a"])
      = true :=
  parse_error_propagates "k" (by decide)
    ⟨fun _ => .ok [⟨"v1", "t1", "c1", "bad-timestamp"⟩], fun _ => []⟩ ["a"] "a"
    (by decide) [⟨"v1", "t1", "c1", "bad-timestamp"⟩] (by decide)
    ⟨"v1", "t1", "c1", "bad-timestamp"⟩ (by decide) (by decide)

end NBA
